import Mathlib

/-!
Verification of the local feature-flag evaluation engine of `mixpanel-go`
(package `flags`): deterministic bucketing (`utils.go`), rollout/variant
resolution, test overrides, exposure reporting (`localFlags.go`,
`flagsProvider.go`), and the definition-store state machine.

Shallow embedding conventions:
- Go `uint64` arithmetic is `Nat` with explicit `% 2 ^ 64`.
- Go `float64` percentages/splits/hash buckets are `ℚ` (the hash bucket is
  `(n % 100) / 100`, exactly representable; comparisons are exact).
- Go `map[string]T` is an association list `List (String × T)`; lookup finds
  the first binding, insertion replaces an existing binding.
- Go `any` values that flow through the flag context are the inductive
  `GoValue`.
- Fallible / effectful collaborators (the HTTP fetch, the JSON decoder, the
  third-party jsonlogic evaluator, the tracker sink) are explicit parameters.
-/

namespace Flags

/-! ### Deterministic bucketing (`utils.go`) -/

/-- FNV-1a 64-bit prime (`fnvPrime` in `utils.go`). -/
def fnvPrime : Nat := 0x100000001B3

/-- FNV-1a 64-bit offset basis (`fnvOffset` in `utils.go`). -/
def fnvOffset : Nat := 0xCBF29CE484222325

/-- `fnv1a64` from `utils.go`: FNV-1a 64-bit hash of a byte sequence,
with `uint64` overflow made explicit as `% 2 ^ 64`. -/
def fnv1a64 (data : List Nat) : Nat :=
  data.foldl (fun hash b => ((hash ^^^ b) * fnvPrime) % 2 ^ 64) fnvOffset

/-- UTF-8 encoding of one Unicode scalar value, as byte values. -/
def utf8Bytes (c : Char) : List Nat :=
  let n := c.toNat
  if n < 0x80 then [n]
  else if n < 0x800 then [0xC0 + n / 64, 0x80 + n % 64]
  else if n < 0x10000 then
    [0xE0 + n / 4096, 0x80 + (n / 64) % 64, 0x80 + n % 64]
  else
    [0xF0 + n / 262144, 0x80 + (n / 4096) % 64, 0x80 + (n / 64) % 64,
      0x80 + n % 64]

/-- The UTF-8 bytes of a string (Go's `[]byte(s)`). -/
def strBytes (s : String) : List Nat :=
  s.data.flatMap utf8Bytes

/-- `normalizedHash` from `utils.go`: hash `key + salt`, reduce mod 100,
divide by 100.  The Go code divides in `float64`; since the numerator is an
integer below 100 and the Go comparison partners are the same quotients, the
value is modelled exactly in `ℚ`. -/
def normalizedHash (key salt : String) : ℚ :=
  (((fnv1a64 (strBytes (key ++ salt))) % 100 : ℕ) : ℚ) / 100

theorem strBytes_append (s t : String) :
    strBytes (s ++ t) = strBytes s ++ strBytes t := by
  simp [strBytes, String.data_append]

theorem normalizedHash_nonneg (key salt : String) :
    0 ≤ normalizedHash key salt := by
  unfold normalizedHash
  positivity

theorem normalizedHash_lt_one (key salt : String) :
    normalizedHash key salt < 1 := by
  unfold normalizedHash
  rw [div_lt_one (by norm_num)]
  have h : fnv1a64 (strBytes (key ++ salt)) % 100 < 100 :=
    Nat.mod_lt _ (by norm_num)
  exact_mod_cast lt_of_lt_of_le (Nat.cast_lt.mpr h) (by norm_num)

/-! ### Go value model -/

/-- A Go `any` value as it flows through `FlagContext`, variant values,
runtime rules and exposure properties: strings, numbers, booleans, `nil`,
`map[string]any` (as an association list) and `[]any`. -/
inductive GoValue where
  | str (s : String)
  | num (q : ℚ)
  | bool (b : Bool)
  | null
  | obj (entries : List (String × GoValue))
  | arr (elems : List GoValue)
deriving Repr

instance : Inhabited GoValue := ⟨GoValue.null⟩

/-- Go map lookup `m[k]`: first binding of `k` in the association list. -/
def lookupKey {α : Type} (m : List (String × α)) (k : String) : Option α :=
  (m.find? (fun p => p.1 == k)).map (·.2)

/-- Go map assignment `m[k] = v`: replace the binding of `k` if present,
otherwise add it. -/
def insertReplace {α : Type} (m : List (String × α)) (k : String) (v : α) :
    List (String × α) :=
  if m.any (fun p => p.1 == k) then
    m.map (fun p => if p.1 == k then (k, v) else p)
  else
    m ++ [(k, v)]

/-- A caller-supplied flag context (Go `FlagContext = map[string]any`). -/
def FlagContext := List (String × GoValue)

/-- Go's `fmt.Sprintf("%v", v)` as used to stringify the bucketing subject:
exact for strings, booleans and `nil` (the shapes the engine buckets on);
best-effort rendering for the remaining shapes. -/
def goFormat : GoValue → String
  | .str s => s
  | .bool b => if b then "true" else "false"
  | .null => "<nil>"
  | .num q => toString q
  | .obj _ => "map"
  | .arr _ => "slice"

/-- Go's `strings.EqualFold` restricted to ASCII folding: the strings are
equal after lowercasing each character; used for case-insensitive
variant-key comparison. -/
def eqFold (a b : String) : Bool :=
  a.data.map Char.toLower == b.data.map Char.toLower

mutual

/-- `lowercaseKeysAndValues` from `utils.go`: recursively lowercase all
string keys and string values (used on `custom_properties`). -/
def lowercaseKeysAndValues : GoValue → GoValue
  | .str s => .str s.toLower
  | .obj m => .obj (lowercaseEntries m)
  | .arr l => .arr (lowercaseItems l)
  | v => v

def lowercaseEntries : List (String × GoValue) → List (String × GoValue)
  | [] => []
  | (k, v) :: rest => (k.toLower, lowercaseKeysAndValues v) :: lowercaseEntries rest

def lowercaseItems : List GoValue → List GoValue
  | [] => []
  | v :: rest => lowercaseKeysAndValues v :: lowercaseItems rest

end

mutual

/-- `lowercaseOnlyLeafNodes` from `utils.go`: recursively lowercase string
values only, leaving map keys (the rule operators) unchanged. -/
def lowercaseOnlyLeafNodes : GoValue → GoValue
  | .str s => .str s.toLower
  | .obj m => .obj (lowercaseLeafEntries m)
  | .arr l => .arr (lowercaseLeafItems l)
  | v => v

def lowercaseLeafEntries : List (String × GoValue) → List (String × GoValue)
  | [] => []
  | (k, v) :: rest => (k, lowercaseOnlyLeafNodes v) :: lowercaseLeafEntries rest

def lowercaseLeafItems : List GoValue → List GoValue
  | [] => []
  | v :: rest => lowercaseOnlyLeafNodes v :: lowercaseLeafItems rest

end

/-! ### Data model (`types.go` / package `flags`) -/

/-- `SelectedVariant`: the evaluation result; pointer fields are `Option`. -/
structure SelectedVariant where
  VariantKey : Option String
  VariantValue : GoValue
  ExperimentID : Option String := none
  IsExperimentActive : Option Bool := none
  IsQATester : Option Bool := none
deriving Repr

/-- `Variant`: one possible outcome of a flag. -/
structure Variant where
  Key : String
  Value : GoValue
  IsControl : Bool
  Split : ℚ
deriving Repr

/-- `VariantOverride`: forces one variant key on a rollout. -/
structure VariantOverride where
  Key : String
deriving Repr

/-- `Rollout`: a traffic-eligibility rule; `nil`-able Go maps/pointers are
`Option`. The runtime rule is a `map[string]any` predicate tree. -/
structure Rollout where
  RolloutPercentage : ℚ
  RuntimeEvaluationRule : Option (List (String × GoValue)) := none
  VariantOverride : Option VariantOverride := none
  VariantSplits : Option (List (String × ℚ)) := none
deriving Repr

/-- `FlagTestUsers`: the per-user test override map. -/
structure FlagTestUsers where
  Users : Option (List (String × String))
deriving Repr

/-- `RuleSet`: variants, ordered rollouts and optional test overrides. -/
structure RuleSet where
  Variants : List Variant
  Rollouts : List Rollout
  Test : Option FlagTestUsers := none
deriving Repr

/-- `ExperimentationFlag`: one flag definition. -/
structure ExperimentationFlag where
  ID : String
  Name : String
  Key : String
  Status : String
  ProjectID : Int
  Ruleset : RuleSet
  Context : String
  ExperimentID : Option String := none
  IsExperimentActive : Option Bool := none
  HashSalt : Option String := none
deriving Repr

/-- The third-party `jsonlogic.ApplyInterface(rule, data)` collaborator:
it may fail (Go `error`) or return any value. -/
def JSONLogicApply := GoValue → GoValue → Except String GoValue

/-! ### Resolver (`localFlags.go`) -/

/-- `getMatchingVariant` (`localFlags.go`): first variant whose key matches
case-insensitively; returns the canonical key from the definition, and marks
`IsQATester` only when asked to. -/
def getMatchingVariant (variantKey : String) (flag : ExperimentationFlag)
    (isQATester : Bool) : Option SelectedVariant :=
  match flag.Ruleset.Variants.find? (fun v => eqFold variantKey v.Key) with
  | some variant =>
      some { VariantKey := some variant.Key
             VariantValue := variant.Value
             ExperimentID := flag.ExperimentID
             IsExperimentActive := flag.IsExperimentActive
             IsQATester := if isQATester then some true else none }
  | none => none

/-- `getVariantOverrideForTestUser` (`localFlags.go`): the literal context
key `"distinct_id"` (a string) is looked up in the ruleset's test-user map;
a hit resolves case-insensitively against the variant list. -/
def getVariantOverrideForTestUser (flag : ExperimentationFlag)
    (flagContext : FlagContext) : Option SelectedVariant :=
  match flag.Ruleset.Test with
  | none => none
  | some test =>
    match test.Users with
    | none => none
    | some users =>
      match lookupKey flagContext "distinct_id" with
      | some (.str distinctID) =>
        match lookupKey users distinctID with
        | some variantKey => getMatchingVariant variantKey flag true
        | none => none
      | _ => none

/-- `evaluateJSONLogicRule` (`localFlags.go`): requires a map-valued
`custom_properties` context entry; lowercases property keys and values and
rule leaves; an evaluator error or a non-boolean result yields `false`. -/
def evaluateJSONLogicRule (jl : JSONLogicApply)
    (rule : List (String × GoValue)) (flagContext : FlagContext) : Bool :=
  match lookupKey flagContext "custom_properties" with
  | some (.obj customProps) =>
    match jl (lowercaseOnlyLeafNodes (.obj rule))
        (lowercaseKeysAndValues (.obj customProps)) with
    | .error _ => false
    | .ok (.bool b) => b
    | .ok _ => false
  | _ => false

/-- `isRuntimeEvaluationSatisfied` (`localFlags.go`): a rollout with no
runtime rule is satisfied. -/
def isRuntimeEvaluationSatisfied (jl : JSONLogicApply) (rollout : Rollout)
    (flagContext : FlagContext) : Bool :=
  match rollout.RuntimeEvaluationRule with
  | some rule => evaluateJSONLogicRule jl rule flagContext
  | none => true

/-- The rollout salt at 0-based index `i` (`getAssignedRollout`, loop body):
`key + hashSalt + i` with a hash salt, `key + "rollout"` without. -/
def rolloutSalt (flag : ExperimentationFlag) (i : Nat) : String :=
  match flag.HashSalt with
  | some hs => flag.Key ++ hs ++ toString i
  | none => flag.Key ++ "rollout"

/-- Loop of `getAssignedRollout`, carrying the 0-based index. -/
def getAssignedRolloutAux (jl : JSONLogicApply) (flag : ExperimentationFlag)
    (contextValue : GoValue) (flagContext : FlagContext) :
    Nat → List Rollout → Option Rollout
  | _, [] => none
  | i, rollout :: rest =>
    let rolloutHash := normalizedHash (goFormat contextValue) (rolloutSalt flag i)
    if rolloutHash < rollout.RolloutPercentage ∧
        isRuntimeEvaluationSatisfied jl rollout flagContext = true then
      some rollout
    else
      getAssignedRolloutAux jl flag contextValue flagContext (i + 1) rest

/-- `getAssignedRollout` (`localFlags.go`): first rollout, in array order,
whose bucket is below its percentage and whose runtime rule is satisfied. -/
def getAssignedRollout (jl : JSONLogicApply) (flag : ExperimentationFlag)
    (contextValue : GoValue) (flagContext : FlagContext) : Option Rollout :=
  getAssignedRolloutAux jl flag contextValue flagContext 0 flag.Ruleset.Rollouts

/-- The variant-list sort of `getAssignedVariant` / `fetchFlagDefinitions`
(`sort.Slice` by key). -/
def sortVariantsByKey (vs : List Variant) : List Variant :=
  vs.insertionSort (fun a b => a.Key ≤ b.Key)

/-- Applying a rollout's `variantSplits` onto matching variant keys
(`getAssignedVariant`). -/
def applySplits (rollout : Rollout) (vs : List Variant) : List Variant :=
  match rollout.VariantSplits with
  | some splits =>
      vs.map (fun v =>
        match lookupKey splits v.Key with
        | some split => { v with Split := split }
        | none => v)
  | none => vs

/-- The cumulative-split selection loop of `getAssignedVariant`: each
iteration marks the current variant selected, adds its split, and breaks
when the hash falls below the running total; with no break the last variant
stays selected; an empty list leaves nothing selected. -/
def selectVariantLoop (variantHash : ℚ) (cumulative : ℚ) :
    List Variant → Option Variant
  | [] => none
  | v :: rest =>
    let c := cumulative + v.Split
    if variantHash < c then some v
    else
      match selectVariantLoop variantHash c rest with
      | some w => some w
      | none => some v

/-- The `SelectedVariant` built at the end of `getAssignedVariant`. -/
def mkSelectedVariant (flag : ExperimentationFlag) (v : Variant) :
    SelectedVariant :=
  { VariantKey := some v.Key
    VariantValue := v.Value
    ExperimentID := flag.ExperimentID
    IsExperimentActive := flag.IsExperimentActive }

/-- `getAssignedVariant` (`localFlags.go`): an override that names an
existing variant wins; otherwise the variants sorted by key, with the
rollout's split overrides applied, are walked against
`bucket(subject, flagKey + hashSalt + "variant")`. -/
def getAssignedVariant (flag : ExperimentationFlag) (contextValue : GoValue)
    (flagKey : String) (rollout : Rollout) : Option SelectedVariant :=
  let overridden : Option SelectedVariant :=
    match rollout.VariantOverride with
    | some ov => getMatchingVariant ov.Key flag false
    | none => none
  match overridden with
  | some variant => some variant
  | none =>
    let storedSalt := flag.HashSalt.getD ""
    let salt := flagKey ++ storedSalt ++ "variant"
    let variantHash := normalizedHash (goFormat contextValue) salt
    let variants := applySplits rollout (sortVariantsByKey flag.Ruleset.Variants)
    (selectVariantLoop variantHash 0 variants).map (mkSelectedVariant flag)

/-! ### Exposure reporter (`flagsProvider.go`) -/

/-- `exposureEventName` from the package constants. -/
def exposureEventName : String := "$experiment_started"

/-- A single invocation of the tracker sink (`p.tracker(distinctID,
eventName, properties)`). -/
structure ExposureCall where
  distinctID : String
  eventName : String
  properties : List (String × GoValue)
deriving Repr

/-- A Go `*string` / `*bool` stored into an `any` property slot. -/
def optGoStr : Option String → GoValue
  | some s => .str s
  | none => .null

/-- `trackExposure` (`flagsProvider.go`): a no-op unless the context holds a
string `distinct_id` and a tracker is configured; otherwise one sink call
with the fixed event name and the property bag, optional fields included
only when present. `hasTracker` models `p.tracker != nil`; the returned
`Option` is the zero-or-one sink invocations the call performs. -/
def trackExposure (evaluationMode : String) (hasTracker : Bool)
    (flagKey : String) (variant : SelectedVariant)
    (flagContext : FlagContext) (latencyMs : Option Int) :
    Option ExposureCall :=
  match lookupKey flagContext "distinct_id" with
  | some (.str distinctID) =>
    if hasTracker then
      let base : List (String × GoValue) :=
        [("Experiment name", .str flagKey),
         ("Variant name", optGoStr variant.VariantKey),
         ("$experiment_type", .str "feature_flag"),
         ("Flag evaluation mode", .str evaluationMode)]
      let withID := match variant.ExperimentID with
        | some eid => base ++ [("$experiment_id", .str eid)]
        | none => base
      let withActive := match variant.IsExperimentActive with
        | some act => withID ++ [("$is_experiment_active", .bool act)]
        | none => withID
      let withQA := match variant.IsQATester with
        | some qa => withActive ++ [("$is_qa_tester", .bool qa)]
        | none => withActive
      let properties := match latencyMs with
        | some ms => withQA ++ [("Variant fetch latency (ms)", .num (ms : ℚ))]
        | none => withQA
      some { distinctID := distinctID
             eventName := exposureEventName
             properties := properties }
    else none
  | _ => none

/-! ### Evaluation façade (`localFlags.go`) -/

/-- The test-override-then-rollout dispatch inside `GetVariant`
(lines choosing `selectedVariant`). -/
def resolveVariant (jl : JSONLogicApply) (flag : ExperimentationFlag)
    (contextValue : GoValue) (flagKey : String)
    (flagContext : FlagContext) : Option SelectedVariant :=
  match getVariantOverrideForTestUser flag flagContext with
  | some testVariant => some testVariant
  | none =>
    match getAssignedRollout jl flag contextValue flagContext with
    | some rollout => getAssignedVariant flag contextValue flagKey rollout
    | none => none

/-- `GetVariant` (`localFlags.go`): looks the flag up in the published
snapshot, requires the context attribute named by the flag, resolves via
test overrides then rollouts, and reports exposure only for a resolved
variant when asked to. `flags` is the published snapshot,
`evaluationMode`/`hasTracker` come from the provider, and `latencyMs` is
the measured wall-clock latency fed to the exposure call. The second
component is the sink invocation the call performs, if any. -/
def GetVariant (jl : JSONLogicApply)
    (flags : List (String × ExperimentationFlag))
    (evaluationMode : String) (hasTracker : Bool) (latencyMs : Int)
    (flagKey : String) (fallbackVariant : SelectedVariant)
    (flagContext : FlagContext) (reportExposure : Bool) :
    SelectedVariant × Option ExposureCall :=
  match lookupKey flags flagKey with
  | none => (fallbackVariant, none)
  | some flag =>
    match lookupKey flagContext flag.Context with
    | none => (fallbackVariant, none)
    | some contextValue =>
      match resolveVariant jl flag contextValue flagKey flagContext with
      | some selectedVariant =>
        let exposure :=
          if reportExposure then
            trackExposure evaluationMode hasTracker flagKey selectedVariant
              flagContext (some latencyMs)
          else none
        (selectedVariant, exposure)
      | none => (fallbackVariant, none)

/-! ### Definition store (`fetchFlagDefinitions`) -/

/-- The outcome of `p.client.Do(req)` as seen by `fetchFlagDefinitions`:
a transport failure, or a response with a status code and a body. -/
inductive HTTPFetchResult where
  | failure (msg : String)
  | response (statusCode : Nat) (body : String)
deriving Repr

/-- The published store state: the snapshot pointer
(`flagDefinitions`) and the ready bit (`areFlagsReady`). -/
structure FlagStoreState where
  flagDefinitions : List (String × ExperimentationFlag)
  areFlagsReady : Bool
deriving Repr

/-- The per-flag normalization in `fetchFlagDefinitions`: sort the flag's
variant list by key. -/
def sortFlagVariants (flag : ExperimentationFlag) : ExperimentationFlag :=
  { flag with Ruleset := { flag.Ruleset with
      Variants := sortVariantsByKey flag.Ruleset.Variants } }

/-- One iteration of the snapshot-building loop of `fetchFlagDefinitions`:
index the variant-sorted flag under its key. -/
def buildFlagMapStep (m : List (String × ExperimentationFlag))
    (flag : ExperimentationFlag) : List (String × ExperimentationFlag) :=
  insertReplace m (sortFlagVariants flag).Key (sortFlagVariants flag)

/-- The snapshot-building loop of `fetchFlagDefinitions`: each fetched
flag's variants are sorted by key, then the flag is indexed under its key
(later duplicates overwrite, as in a Go map). -/
def buildFlagMap (flagsList : List ExperimentationFlag) :
    List (String × ExperimentationFlag) :=
  flagsList.foldl buildFlagMapStep []

/-- `fetchFlagDefinitions` (`localFlags.go`), with the HTTP call and the
JSON decoding as explicit inputs: a transport failure, a non-200 status or
an undecodable body returns the error and publishes nothing; a decoded
response replaces the snapshot and sets the ready bit. -/
def fetchFlagDefinitions
    (decode : String → Except String (List ExperimentationFlag))
    (httpResult : HTTPFetchResult) (st : FlagStoreState) :
    FlagStoreState × Option String :=
  match httpResult with
  | .failure msg => (st, some ("request failed: " ++ msg))
  | .response statusCode body =>
    if statusCode ≠ 200 then
      (st, some ("unexpected status code: " ++ toString statusCode ++
        ", body: " ++ body))
    else
      match decode body with
      | .error e => (st, some ("failed to decode response: " ++ e))
      | .ok flagsList =>
        ({ flagDefinitions := buildFlagMap flagsList, areFlagsReady := true },
          none)

/-! ### Polling lifecycle (`StartPollingForDefinitions` /
`StopPollingForDefinitions`) -/

/-- The polling-relevant provider state: the `pollingStarted` flag and the
number of live background polling tasks (goroutines launched by start and
joined by stop). -/
structure PollingState where
  pollingStarted : Bool
  runningTasks : Nat
deriving Repr, DecidableEq

/-- A fresh provider: polling not started, no background task. -/
def initialPollingState : PollingState :=
  { pollingStarted := false, runningTasks := 0 }

/-- `StartPollingForDefinitions`: a failed initial fetch returns the error
and changes nothing; otherwise a background task is launched only when
polling is enabled and not already started. The `Bool` result is Go's
`error == nil`. -/
def StartPollingForDefinitions (enablePolling fetchOk : Bool)
    (st : PollingState) : PollingState × Bool :=
  if !fetchOk then (st, false)
  else if enablePolling && !st.pollingStarted then
    ({ pollingStarted := true, runningTasks := st.runningTasks + 1 }, true)
  else (st, true)

/-- `StopPollingForDefinitions`: when started, signals the task, waits for
it to exit (joining it), and clears the flag; otherwise does nothing. -/
def StopPollingForDefinitions (st : PollingState) : PollingState :=
  if st.pollingStarted then
    { pollingStarted := false, runningTasks := st.runningTasks - 1 }
  else st

/-- One client-visible lifecycle operation. -/
inductive PollingOp where
  | start (enablePolling fetchOk : Bool)
  | stop
deriving Repr, DecidableEq

/-- Apply one lifecycle operation to the polling state. -/
def pollingStep (st : PollingState) : PollingOp → PollingState
  | .start enablePolling fetchOk =>
      (StartPollingForDefinitions enablePolling fetchOk st).1
  | .stop => StopPollingForDefinitions st

/-- The polling state after a sequence of start/stop calls on a freshly
constructed provider. -/
def pollingRun (ops : List PollingOp) : PollingState :=
  ops.foldl pollingStep initialPollingState

/-! ### Theorems -/

/-- C1: for every subject `s` and salt `t`, `bucket(s, t)` is the FNV-1a
64-bit hash of the UTF-8 bytes of `s ++ t`, reduced mod 100 and divided by
100, hence lies in `[0, 1)`; and the cross-implementation vectors hold:
`bucket("abc", "variant") = 0.72` and `bucket("def", "variant") = 0.21`. -/
theorem C1_bucket_fnv1a_mod100 :
    (∀ s t : String,
      normalizedHash s t =
        ((fnv1a64 (strBytes (s ++ t)) % 100 : ℕ) : ℚ) / 100 ∧
      0 ≤ normalizedHash s t ∧ normalizedHash s t < 1) ∧
    normalizedHash "abc" "variant" = 72 / 100 ∧
    normalizedHash "def" "variant" = 21 / 100 := by
  refine ⟨fun s t => ⟨rfl, normalizedHash_nonneg s t, normalizedHash_lt_one s t⟩,
    ?_, ?_⟩
  · unfold normalizedHash
    rw [show fnv1a64 (strBytes ("abc" ++ "variant")) % 100 = 72 from by decide]
    norm_num
  · unfold normalizedHash
    rw [show fnv1a64 (strBytes ("def" ++ "variant")) % 100 = 21 from by decide]
    norm_num

theorem start_noop_of_started (enablePolling fetchOk : Bool)
    (st : PollingState) (h : st.pollingStarted = true) :
    StartPollingForDefinitions enablePolling fetchOk st = (st, fetchOk) := by
  unfold StartPollingForDefinitions
  cases fetchOk <;> simp [h]

theorem pollingStep_taskInv (st : PollingState)
    (h : st.runningTasks = if st.pollingStarted then 1 else 0) :
    ∀ op, (pollingStep st op).runningTasks =
      if (pollingStep st op).pollingStarted then 1 else 0 := by
  intro op
  cases op with
  | start enablePolling fetchOk =>
    unfold pollingStep StartPollingForDefinitions
    cases fetchOk with
    | false => simpa using h
    | true =>
      by_cases hs : st.pollingStarted = true
      · simp [hs, h]
      · cases enablePolling <;> simp_all
  | stop =>
    unfold pollingStep StopPollingForDefinitions
    by_cases hs : st.pollingStarted = true
    · simp [hs, h]
    · simp_all

theorem pollingRun_taskInv (ops : List PollingOp) :
    (pollingRun ops).runningTasks =
      if (pollingRun ops).pollingStarted then 1 else 0 := by
  suffices h : ∀ st, st.runningTasks = (if st.pollingStarted then 1 else 0) →
      (ops.foldl pollingStep st).runningTasks =
        if (ops.foldl pollingStep st).pollingStarted then 1 else 0 by
    exact h initialPollingState rfl
  induction ops with
  | nil => intro st h; simpa using h
  | cons op rest ih =>
    intro st h
    exact ih (pollingStep st op) (pollingStep_taskInv st h op)

/-- C9: starting a second time without an intervening stop leaves the state
unchanged (returning the fetch outcome) and launches no second background
task; stopping when never started or already stopped is a no-op; and along
any start/stop sequence from a fresh provider at most one background task
is ever live. -/
theorem C9_idempotent_start_stop :
    (∀ (enablePolling fetchOk : Bool) (st : PollingState),
      st.pollingStarted = true →
      StartPollingForDefinitions enablePolling fetchOk st = (st, fetchOk)) ∧
    (∀ st : PollingState, st.pollingStarted = false →
      StopPollingForDefinitions st = st) ∧
    (∀ ops : List PollingOp, (pollingRun ops).runningTasks ≤ 1) := by
  refine ⟨fun e f st h => start_noop_of_started e f st h, fun st h => ?_, fun ops => ?_⟩
  · unfold StopPollingForDefinitions
    simp [h]
  · rw [pollingRun_taskInv ops]
    split <;> omega

/-- C9 witness: a started provider's second start is a no-op keeping one
task; stop on a fresh provider is a no-op; two starts leave at most one
task. -/
theorem C9_idempotent_start_stop_witness :
    StartPollingForDefinitions true true ⟨true, 1⟩ = (⟨true, 1⟩, true) ∧
    StopPollingForDefinitions ⟨false, 0⟩ = ⟨false, 0⟩ ∧
    (pollingRun [.start true true, .start true true]).runningTasks ≤ 1 :=
  ⟨C9_idempotent_start_stop.1 true true ⟨true, 1⟩ rfl,
   C9_idempotent_start_stop.2.1 ⟨false, 0⟩ rfl,
   C9_idempotent_start_stop.2.2 [.start true true, .start true true]⟩

/-- C5: runtime rule evaluation is total over the booleans — a missing or
non-map `custom_properties` entry, an evaluator error, or a non-boolean
evaluation result all yield "not satisfied" (`false`) rather than an error,
and a rollout without a runtime rule is satisfied. -/
theorem C5_rule_evaluation_fail_closed :
    ∀ (jl : JSONLogicApply) (rule : List (String × GoValue))
      (rollout : Rollout) (flagContext : FlagContext),
      (rollout.RuntimeEvaluationRule = none →
        isRuntimeEvaluationSatisfied jl rollout flagContext = true) ∧
      (rollout.RuntimeEvaluationRule = some rule →
        isRuntimeEvaluationSatisfied jl rollout flagContext =
          evaluateJSONLogicRule jl rule flagContext) ∧
      ((∀ props, lookupKey flagContext "custom_properties" ≠
          some (.obj props)) →
        evaluateJSONLogicRule jl rule flagContext = false) ∧
      (∀ props e, lookupKey flagContext "custom_properties" =
          some (.obj props) →
        jl (lowercaseOnlyLeafNodes (.obj rule))
            (lowercaseKeysAndValues (.obj props)) = .error e →
        evaluateJSONLogicRule jl rule flagContext = false) ∧
      (∀ props res, lookupKey flagContext "custom_properties" =
          some (.obj props) →
        jl (lowercaseOnlyLeafNodes (.obj rule))
            (lowercaseKeysAndValues (.obj props)) = .ok res →
        (∀ b, res ≠ .bool b) →
        evaluateJSONLogicRule jl rule flagContext = false) := by
  intro jl rule rollout flagContext
  refine ⟨fun h => ?_, fun h => ?_, fun h => ?_, fun props e hp he => ?_,
    fun props res hp hr hb => ?_⟩
  · simp [isRuntimeEvaluationSatisfied, h]
  · simp [isRuntimeEvaluationSatisfied, h]
  · unfold evaluateJSONLogicRule
    cases hl : lookupKey flagContext "custom_properties" with
    | none => rfl
    | some v =>
      cases v with
      | obj props => exact absurd hl (h props)
      | str s => rfl
      | num q => rfl
      | bool b => rfl
      | null => rfl
      | arr l => rfl
  · simp [evaluateJSONLogicRule, hp, he]
  · cases res with
    | bool b => exact absurd rfl (hb b)
    | str s => simp [evaluateJSONLogicRule, hp, hr]
    | num q => simp [evaluateJSONLogicRule, hp, hr]
    | null => simp [evaluateJSONLogicRule, hp, hr]
    | obj m => simp [evaluateJSONLogicRule, hp, hr]
    | arr l => simp [evaluateJSONLogicRule, hp, hr]

/-- C5 witness: a rule-free rollout is satisfied; with an always-erroring
evaluator, a map-valued `custom_properties` still evaluates to `false`; a
context without `custom_properties` evaluates to `false`. -/
theorem C5_rule_evaluation_fail_closed_witness :
    isRuntimeEvaluationSatisfied (fun _ _ => .error "boom")
      { RolloutPercentage := 1 } [] = true ∧
    evaluateJSONLogicRule (fun _ _ => .error "boom") []
      [("custom_properties", .obj [])] = false ∧
    evaluateJSONLogicRule (fun _ _ => .ok .null) [] [] = false := by
  refine ⟨(C5_rule_evaluation_fail_closed (fun _ _ => .error "boom") []
      { RolloutPercentage := 1 } []).1 rfl,
    (C5_rule_evaluation_fail_closed (fun _ _ => .error "boom") []
      ⟨1, none, none, none⟩
      [("custom_properties", .obj [])]).2.2.2.1 [] "boom" rfl rfl,
    (C5_rule_evaluation_fail_closed (fun _ _ => .ok .null) [] ⟨1, none, none, none⟩
      []).2.2.1 ?_⟩
  intro props
  simp [lookupKey]

/-- C8: exposure reporting is a silent no-op exactly when the context lacks
a string `distinct_id` or the sink is null; otherwise the sink is invoked
exactly once with the subject, the fixed event name, and a property bag
holding the flag key, variant key, the experiment-type marker, the
evaluation mode, and — each exactly when present — the experiment id, the
active-experiment flag, the QA-tester flag, and the latency in
milliseconds. -/
theorem C8_exposure_payload :
    ∀ (evaluationMode : String) (hasTracker : Bool) (flagKey : String)
      (variant : SelectedVariant) (flagContext : FlagContext)
      (latencyMs : Option Int),
      (trackExposure evaluationMode hasTracker flagKey variant flagContext
          latencyMs = none ↔
        (∀ d, lookupKey flagContext "distinct_id" ≠ some (.str d)) ∨
          hasTracker = false) ∧
      (∀ d, lookupKey flagContext "distinct_id" = some (.str d) →
        hasTracker = true →
        ∃ call, trackExposure evaluationMode hasTracker flagKey variant
            flagContext latencyMs = some call ∧
          call.distinctID = d ∧
          call.eventName = exposureEventName ∧
          lookupKey call.properties "Experiment name" =
            some (.str flagKey) ∧
          lookupKey call.properties "Variant name" =
            some (optGoStr variant.VariantKey) ∧
          lookupKey call.properties "$experiment_type" =
            some (.str "feature_flag") ∧
          lookupKey call.properties "Flag evaluation mode" =
            some (.str evaluationMode) ∧
          lookupKey call.properties "$experiment_id" =
            variant.ExperimentID.map (fun eid => .str eid) ∧
          lookupKey call.properties "$is_experiment_active" =
            variant.IsExperimentActive.map (fun act => .bool act) ∧
          lookupKey call.properties "$is_qa_tester" =
            variant.IsQATester.map (fun qa => .bool qa) ∧
          lookupKey call.properties "Variant fetch latency (ms)" =
            latencyMs.map (fun ms => .num (ms : ℚ))) := by
  intro evaluationMode hasTracker flagKey variant flagContext latencyMs
  constructor
  · constructor
    · intro hnone
      cases hl : lookupKey flagContext "distinct_id" with
      | none =>
        left
        intro d hd
        simp at hd
      | some v =>
        cases v with
        | str d =>
          right
          cases ht : hasTracker with
          | false => rfl
          | true => simp [trackExposure, hl, ht] at hnone
        | num q => left; intro d hd; simp at hd
        | bool b => left; intro d hd; simp at hd
        | null => left; intro d hd; simp at hd
        | obj m => left; intro d hd; simp at hd
        | arr l => left; intro d hd; simp at hd
    · intro h
      cases hl : lookupKey flagContext "distinct_id" with
      | none => simp [trackExposure, hl]
      | some v =>
        cases v with
        | str d =>
          rcases h with h | h
          · exact absurd hl (h d)
          · simp [trackExposure, hl, h]
        | num q => simp [trackExposure, hl]
        | bool b => simp [trackExposure, hl]
        | null => simp [trackExposure, hl]
        | obj m => simp [trackExposure, hl]
        | arr l => simp [trackExposure, hl]
  · intro d hd ht
    cases hE : variant.ExperimentID <;> cases hA : variant.IsExperimentActive <;>
      cases hQ : variant.IsQATester <;> cases hL : latencyMs <;>
      (simp only [trackExposure, hd, ht, hE, hA, hQ, hL, if_true];
       refine ⟨_, rfl, rfl, rfl, ?_, ?_, ?_, ?_, ?_, ?_, ?_, ?_⟩ <;>
         simp [lookupKey])

/-- C8 witness: with a present tracker and a string `distinct_id`, the sink
call carries the flag key; with no tracker it is a no-op. -/
theorem C8_exposure_payload_witness :
    (∃ call, trackExposure "local" true "flag-a"
        { VariantKey := some "v1", VariantValue := .bool true }
        [("distinct_id", .str "u1")] (some 3) = some call ∧
      call.distinctID = "u1" ∧
      call.eventName = exposureEventName ∧
      lookupKey call.properties "Experiment name" = some (.str "flag-a") ∧
      lookupKey call.properties "Variant name" = some (optGoStr (some "v1")) ∧
      lookupKey call.properties "$experiment_type" =
        some (.str "feature_flag") ∧
      lookupKey call.properties "Flag evaluation mode" =
        some (.str "local") ∧
      lookupKey call.properties "$experiment_id" =
        (none : Option String).map (fun eid => .str eid) ∧
      lookupKey call.properties "$is_experiment_active" =
        (none : Option Bool).map (fun act => .bool act) ∧
      lookupKey call.properties "$is_qa_tester" =
        (none : Option Bool).map (fun qa => .bool qa) ∧
      lookupKey call.properties "Variant fetch latency (ms)" =
        (some (3 : Int)).map (fun ms => .num (ms : ℚ))) ∧
    trackExposure "local" false "flag-a"
      { VariantKey := some "v1", VariantValue := .bool true }
      [("distinct_id", .str "u1")] (some 3) = none := by
  constructor
  · exact (C8_exposure_payload "local" true "flag-a"
      { VariantKey := some "v1", VariantValue := .bool true }
      [("distinct_id", .str "u1")] (some 3)).2 "u1" rfl rfl
  · exact (C8_exposure_payload "local" false "flag-a"
      { VariantKey := some "v1", VariantValue := .bool true }
      [("distinct_id", .str "u1")] (some 3)).1.mpr (Or.inr rfl)

/-- The loop condition of `getAssignedRollout` at 0-based index `i`: the
subject's bucket for the index's salt falls under the rollout percentage
and the runtime rule is satisfied. -/
def rolloutMatches (jl : JSONLogicApply) (flag : ExperimentationFlag)
    (contextValue : GoValue) (flagContext : FlagContext) (i : Nat)
    (r : Rollout) : Prop :=
  normalizedHash (goFormat contextValue) (rolloutSalt flag i) <
    r.RolloutPercentage ∧
  isRuntimeEvaluationSatisfied jl r flagContext = true

theorem getAssignedRolloutAux_none_iff (jl : JSONLogicApply)
    (flag : ExperimentationFlag) (contextValue : GoValue)
    (flagContext : FlagContext) (rs : List Rollout) (i : Nat) :
    getAssignedRolloutAux jl flag contextValue flagContext i rs = none ↔
      ∀ k (hk : k < rs.length),
        ¬ rolloutMatches jl flag contextValue flagContext (i + k)
          (rs.get ⟨k, hk⟩) := by
  induction rs generalizing i with
  | nil => simp [getAssignedRolloutAux]
  | cons r rest ih =>
    simp only [getAssignedRolloutAux]
    by_cases hc : normalizedHash (goFormat contextValue) (rolloutSalt flag i)
        < r.RolloutPercentage ∧
        isRuntimeEvaluationSatisfied jl r flagContext = true
    · rw [if_pos hc]
      simp only [false_iff, not_forall, reduceCtorEq]
      exact ⟨0, Nat.succ_pos _, by simpa [rolloutMatches] using hc⟩
    · rw [if_neg hc, ih (i + 1)]
      constructor
      · intro h k hk
        cases k with
        | zero => simpa [rolloutMatches] using hc
        | succ k' =>
          have := h k' (by simpa using Nat.lt_of_succ_lt_succ hk)
          simpa [Nat.add_assoc, Nat.add_comm 1 k'] using this
      · intro h k hk
        have := h (k + 1) (by simpa using Nat.succ_lt_succ hk)
        simpa [Nat.add_assoc, Nat.add_comm 1 k] using this

theorem getAssignedRolloutAux_some (jl : JSONLogicApply)
    (flag : ExperimentationFlag) (contextValue : GoValue)
    (flagContext : FlagContext) (rs : List Rollout) (i : Nat) (r : Rollout)
    (h : getAssignedRolloutAux jl flag contextValue flagContext i rs =
      some r) :
    ∃ k, ∃ hk : k < rs.length,
      rs.get ⟨k, hk⟩ = r ∧
      rolloutMatches jl flag contextValue flagContext (i + k) r ∧
      ∀ j (hj : j < k),
        ¬ rolloutMatches jl flag contextValue flagContext (i + j)
          (rs.get ⟨j, Nat.lt_trans hj hk⟩) := by
  induction rs generalizing i with
  | nil => simp [getAssignedRolloutAux] at h
  | cons r0 rest ih =>
    simp only [getAssignedRolloutAux] at h
    by_cases hc : normalizedHash (goFormat contextValue) (rolloutSalt flag i)
        < r0.RolloutPercentage ∧
        isRuntimeEvaluationSatisfied jl r0 flagContext = true
    · rw [if_pos hc] at h
      refine ⟨0, Nat.succ_pos _, by simpa using Option.some_inj.mp h,
        ?_, fun j hj => absurd hj (Nat.not_lt_zero j)⟩
      have hr : r0 = r := Option.some_inj.mp h
      simpa [rolloutMatches, hr] using hc
    · rw [if_neg hc] at h
      obtain ⟨k, hk, hget, hmatch, hmin⟩ := ih (i + 1) h
      refine ⟨k + 1, Nat.succ_lt_succ hk, by simpa using hget, ?_, ?_⟩
      · simpa [Nat.add_assoc, Nat.add_comm 1 k] using hmatch
      · intro j hj
        cases j with
        | zero => simpa [rolloutMatches] using hc
        | succ j' =>
          have := hmin j' (Nat.lt_of_succ_lt_succ hj)
          simpa [Nat.add_assoc, Nat.add_comm 1 j'] using this

/-- C2: the assigned rollout is the one at the lowest 0-based index whose
bucket (for that index's salt, `key + hashSalt + i` with a hash salt and
`key + "rollout"` without) falls below its percentage and whose runtime
rule is satisfied; later rollouts never win once one matches, and the
resolver yields no decision exactly when no rollout satisfies both
conditions. -/
theorem C2_first_matching_rollout :
    ∀ (jl : JSONLogicApply) (flag : ExperimentationFlag)
      (contextValue : GoValue) (flagContext : FlagContext),
      (∀ hs i, flag.HashSalt = some hs →
        rolloutSalt flag i = flag.Key ++ hs ++ toString i) ∧
      (flag.HashSalt = none → ∀ i,
        rolloutSalt flag i = flag.Key ++ "rollout") ∧
      (∀ r, getAssignedRollout jl flag contextValue flagContext = some r →
        ∃ i, ∃ hi : i < flag.Ruleset.Rollouts.length,
          flag.Ruleset.Rollouts.get ⟨i, hi⟩ = r ∧
          rolloutMatches jl flag contextValue flagContext i r ∧
          ∀ j (hj : j < i),
            ¬ rolloutMatches jl flag contextValue flagContext j
              (flag.Ruleset.Rollouts.get ⟨j, Nat.lt_trans hj hi⟩)) ∧
      (getAssignedRollout jl flag contextValue flagContext = none ↔
        ∀ i (hi : i < flag.Ruleset.Rollouts.length),
          ¬ rolloutMatches jl flag contextValue flagContext i
            (flag.Ruleset.Rollouts.get ⟨i, hi⟩)) := by
  intro jl flag contextValue flagContext
  refine ⟨fun hs i h => by simp [rolloutSalt, h], fun h i => by simp [rolloutSalt, h],
    fun r h => ?_, ?_⟩
  · have := getAssignedRolloutAux_some jl flag contextValue flagContext
      flag.Ruleset.Rollouts 0 r h
    simpa using this
  · have := getAssignedRolloutAux_none_iff jl flag contextValue flagContext
      flag.Ruleset.Rollouts 0
    simpa [getAssignedRollout] using this

/-- A jsonlogic evaluator that always succeeds with `true` (concrete
collaborator used by witnesses). -/
def jlOk : JSONLogicApply := fun _ _ => .ok (.bool true)

/-- A concrete always-on rollout (percentage 1, no rule, no overrides). -/
def rolloutFull : Rollout := { RolloutPercentage := 1 }

/-- A concrete variant with full split weight, used by witnesses. -/
def variantOn : Variant :=
  { Key := "on", Value := .bool true, IsControl := false, Split := 1 }

/-- A concrete one-variant flag used by witnesses. -/
def flagA : ExperimentationFlag :=
  { ID := "1", Name := "Flag A", Key := "flag-a", Status := "active",
    ProjectID := 7
    Ruleset := { Variants := [variantOn], Rollouts := [rolloutFull] }
    Context := "distinct_id" }

theorem getAssignedRollout_flagA :
    getAssignedRollout jlOk flagA (.str "abc") [] = some rolloutFull := by
  simp only [getAssignedRollout, flagA, getAssignedRolloutAux]
  exact if_pos ⟨normalizedHash_lt_one _ _, rfl⟩

/-- C2 witness: for the concrete always-on flag, the assigned rollout is
the (unique) rollout at index 0, it matches, and nothing precedes it. -/
theorem C2_first_matching_rollout_witness :
    ∃ i, ∃ hi : i < flagA.Ruleset.Rollouts.length,
      flagA.Ruleset.Rollouts.get ⟨i, hi⟩ = rolloutFull ∧
      rolloutMatches jlOk flagA (.str "abc") [] i rolloutFull ∧
      ∀ j (hj : j < i),
        ¬ rolloutMatches jlOk flagA (.str "abc") [] j
          (flagA.Ruleset.Rollouts.get ⟨j, Nat.lt_trans hj hi⟩) :=
  (C2_first_matching_rollout jlOk flagA (.str "abc") []).2.2.1 rolloutFull
    getAssignedRollout_flagA

/-- Cumulative split weight of the first `n` variants of a list. -/
def cumSplit (vs : List Variant) (n : Nat) : ℚ :=
  ((vs.take n).map Variant.Split).sum

theorem cumSplit_cons (v : Variant) (rest : List Variant) (n : Nat) :
    cumSplit (v :: rest) (n + 1) = v.Split + cumSplit rest n := by
  simp [cumSplit]

theorem selectVariantLoop_last (h c : ℚ) (vs : List Variant)
    (hno : ∀ k (hk : k < vs.length), ¬ h < c + cumSplit vs (k + 1))
    (hne : vs ≠ []) :
    selectVariantLoop h c vs = some (vs.getLast hne) := by
  induction vs generalizing c with
  | nil => exact absurd rfl hne
  | cons v rest ih =>
    have h0 : ¬ h < c + v.Split := by
      have := hno 0 (Nat.succ_pos _)
      simpa [cumSplit] using this
    simp only [selectVariantLoop]
    rw [if_neg h0]
    cases rest with
    | nil => simp [selectVariantLoop, List.getLast]
    | cons w rest' =>
      have hrec : selectVariantLoop h (c + v.Split) (w :: rest') =
          some ((w :: rest').getLast (by simp)) :=
        ih (c + v.Split)
          (fun k hk => by
            have := hno (k + 1) (Nat.succ_lt_succ hk)
            simpa [cumSplit_cons, add_assoc] using this)
          (by simp)
      rw [hrec]
      simp [List.getLast]

theorem selectVariantLoop_first (h c : ℚ) (vs : List Variant) (i : Nat)
    (hi : i < vs.length) (hhit : h < c + cumSplit vs (i + 1))
    (hmin : ∀ j, j < i → ¬ h < c + cumSplit vs (j + 1)) :
    selectVariantLoop h c vs = some (vs.get ⟨i, hi⟩) := by
  induction vs generalizing c i with
  | nil => exact absurd hi (Nat.not_lt_zero i)
  | cons v rest ih =>
    simp only [selectVariantLoop]
    cases i with
    | zero =>
      have : h < c + v.Split := by simpa [cumSplit] using hhit
      rw [if_pos this]
      rfl
    | succ i' =>
      have h0 : ¬ h < c + v.Split := by
        have := hmin 0 (Nat.succ_pos _)
        simpa [cumSplit] using this
      rw [if_neg h0]
      have hi' : i' < rest.length := Nat.lt_of_succ_lt_succ hi
      have hrec : selectVariantLoop h (c + v.Split) rest =
          some (rest.get ⟨i', hi'⟩) := by
        refine ih (c + v.Split) i' hi' ?_ ?_
        · simpa [cumSplit_cons, add_assoc] using hhit
        · intro j hj
          have := hmin (j + 1) (Nat.succ_lt_succ hj)
          simpa [cumSplit_cons, add_assoc] using this
      rw [hrec]
      rfl

/-- C3: an assigned rollout's variant-override hit is returned immediately;
with no override, or an override key matching no variant, the variant is
picked by weighted split over the flag's variants sorted by key with the
rollout's split overrides applied: with
`h2 = bucket(subject, flagKey + hashSalt + "variant")`, the first variant
whose cumulative weight strictly exceeds `h2` wins, and the last sorted
variant is the catch-all when no cumulative weight exceeds `h2`. -/
theorem C3_variant_selection :
    ∀ (flag : ExperimentationFlag) (contextValue : GoValue)
      (flagKey : String) (rollout : Rollout),
      (∀ ov v, rollout.VariantOverride = some ov →
        getMatchingVariant ov.Key flag false = some v →
        getAssignedVariant flag contextValue flagKey rollout = some v) ∧
      ((rollout.VariantOverride = none ∨
          ∃ ov, rollout.VariantOverride = some ov ∧
            getMatchingVariant ov.Key flag false = none) →
        ∀ h2 vs,
          h2 = normalizedHash (goFormat contextValue)
            (flagKey ++ flag.HashSalt.getD "" ++ "variant") →
          vs = applySplits rollout (sortVariantsByKey flag.Ruleset.Variants) →
          (∀ i (hi : i < vs.length), h2 < cumSplit vs (i + 1) →
            (∀ j, j < i → ¬ h2 < cumSplit vs (j + 1)) →
            getAssignedVariant flag contextValue flagKey rollout =
              some (mkSelectedVariant flag (vs.get ⟨i, hi⟩))) ∧
          ((∀ i (hi : i < vs.length), ¬ h2 < cumSplit vs (i + 1)) →
            ∀ hne : vs ≠ [],
            getAssignedVariant flag contextValue flagKey rollout =
              some (mkSelectedVariant flag (vs.getLast hne)))) := by
  intro flag contextValue flagKey rollout
  constructor
  · intro ov v hov hmatch
    simp [getAssignedVariant, hov, hmatch]
  · intro hno h2 vs hh2 hvs
    have hoverride :
        (match rollout.VariantOverride with
          | some ov => getMatchingVariant ov.Key flag false
          | none => none) = (none : Option SelectedVariant) := by
      rcases hno with h | ⟨ov, hov, hnone⟩
      · simp [h]
      · simp [hov, hnone]
    subst hh2
    subst hvs
    constructor
    · intro i hi hhit hmin
      have hloop := selectVariantLoop_first _ 0 _ i hi
        (by simpa using hhit)
        (fun j hj => by simpa using hmin j hj)
      simp [getAssignedVariant, hoverride, hloop]
    · intro hnone hne
      have hloop := selectVariantLoop_last _ 0 _
        (fun k hk => by simpa using hnone k hk) hne
      simp [getAssignedVariant, hoverride, hloop]

/-- C3 witness: for the concrete one-variant always-on flag, weighted
selection picks the sole variant (index 0, cumulative weight 1). -/
theorem C3_variant_selection_witness :
    getAssignedVariant flagA (.str "abc") "flag-a" rolloutFull =
      some (mkSelectedVariant flagA variantOn) := by
  have hvs : applySplits rolloutFull (sortVariantsByKey flagA.Ruleset.Variants)
      = [variantOn] := rfl
  have happ := ((C3_variant_selection flagA (.str "abc") "flag-a"
      rolloutFull).2 (Or.inl rfl)
      (normalizedHash (goFormat (.str "abc"))
        ("flag-a" ++ flagA.HashSalt.getD "" ++ "variant"))
      (applySplits rolloutFull (sortVariantsByKey flagA.Ruleset.Variants))
      rfl rfl).1 0 (by rw [hvs]; simp)
      (by
        have h1 : cumSplit (applySplits rolloutFull
            (sortVariantsByKey flagA.Ruleset.Variants)) (0 + 1) = 1 := by
          rw [hvs]; simp [cumSplit, variantOn]
        rw [h1]
        exact normalizedHash_lt_one _ _)
      (fun j hj => absurd hj (Nat.not_lt_zero j))
  exact happ

/-- C4: a test override applies exactly when the ruleset has a test-user
map, the literal `distinct_id` context entry is a string present in that
map, and the mapped variant key matches a variant case-insensitively; the
hit returns the canonical variant key with `isQaTester = true` and bypasses
rollout logic; a missing map, subject or variant falls through to the
rollout path. -/
theorem C4_test_override :
    ∀ (flag : ExperimentationFlag) (flagContext : FlagContext),
      (flag.Ruleset.Test = none →
        getVariantOverrideForTestUser flag flagContext = none) ∧
      (∀ t, flag.Ruleset.Test = some t → t.Users = none →
        getVariantOverrideForTestUser flag flagContext = none) ∧
      ((∀ d, lookupKey flagContext "distinct_id" ≠ some (.str d)) →
        getVariantOverrideForTestUser flag flagContext = none) ∧
      (∀ t users d, flag.Ruleset.Test = some t → t.Users = some users →
        lookupKey flagContext "distinct_id" = some (.str d) →
        (lookupKey users d = none →
          getVariantOverrideForTestUser flag flagContext = none) ∧
        (∀ vk, lookupKey users d = some vk →
          getVariantOverrideForTestUser flag flagContext =
            getMatchingVariant vk flag true ∧
          (flag.Ruleset.Variants.find? (fun v => eqFold vk v.Key) = none →
            getVariantOverrideForTestUser flag flagContext = none) ∧
          (∀ variant,
            flag.Ruleset.Variants.find? (fun v => eqFold vk v.Key) =
              some variant →
            getVariantOverrideForTestUser flag flagContext =
              some { VariantKey := some variant.Key
                     VariantValue := variant.Value
                     ExperimentID := flag.ExperimentID
                     IsExperimentActive := flag.IsExperimentActive
                     IsQATester := some true }))) ∧
      (∀ (jl : JSONLogicApply) contextValue flagKey testVariant,
        getVariantOverrideForTestUser flag flagContext = some testVariant →
        resolveVariant jl flag contextValue flagKey flagContext =
          some testVariant) ∧
      (∀ (jl : JSONLogicApply) contextValue flagKey,
        getVariantOverrideForTestUser flag flagContext = none →
        resolveVariant jl flag contextValue flagKey flagContext =
          match getAssignedRollout jl flag contextValue flagContext with
          | some rollout =>
            getAssignedVariant flag contextValue flagKey rollout
          | none => none) := by
  intro flag flagContext
  refine ⟨fun h => by simp [getVariantOverrideForTestUser, h],
    fun t ht hu => by simp [getVariantOverrideForTestUser, ht, hu],
    fun h => ?_, fun t users d ht hu hd => ?_,
    fun jl contextValue flagKey testVariant h => by
      simp [resolveVariant, h],
    fun jl contextValue flagKey h => by simp [resolveVariant, h]⟩
  · unfold getVariantOverrideForTestUser
    cases ht : flag.Ruleset.Test with
    | none => rfl
    | some t =>
      cases hu : t.Users with
      | none => simp [hu]
      | some users =>
        cases hl : lookupKey flagContext "distinct_id" with
        | none => simp [hu]
        | some v =>
          cases v with
          | str d => exact absurd hl (h d)
          | num q => simp [hu]
          | bool b => simp [hu]
          | null => simp [hu]
          | obj m => simp [hu]
          | arr l => simp [hu]
  · constructor
    · intro hnone
      simp [getVariantOverrideForTestUser, ht, hu, hd, hnone]
    · intro vk hvk
      refine ⟨by simp [getVariantOverrideForTestUser, ht, hu, hd, hvk],
        fun hfind => ?_, fun variant hfind => ?_⟩
      · simp [getVariantOverrideForTestUser, ht, hu, hd, hvk,
          getMatchingVariant, hfind]
      · simp [getVariantOverrideForTestUser, ht, hu, hd, hvk,
          getMatchingVariant, hfind]

/-- A concrete flag with a test-user override mapping `qa-user` to the
variant key `ON` (canonical key `on`), used by witnesses. -/
def flagB : ExperimentationFlag :=
  { ID := "2", Name := "Flag B", Key := "flag-b", Status := "active",
    ProjectID := 7
    Ruleset :=
      { Variants := [variantOn], Rollouts := [rolloutFull]
        Test := some { Users := some [("qa-user", "ON")] } }
    Context := "distinct_id" }

/-- C4 witness: the `qa-user` override resolves case-insensitively to the
canonical `on` variant with `IsQATester` set. -/
theorem C4_test_override_witness :
    getVariantOverrideForTestUser flagB [("distinct_id", .str "qa-user")] =
      some { VariantKey := some variantOn.Key
             VariantValue := variantOn.Value
             ExperimentID := flagB.ExperimentID
             IsExperimentActive := flagB.IsExperimentActive
             IsQATester := some true } :=
  (((C4_test_override flagB [("distinct_id", .str "qa-user")]).2.2.2.1
      { Users := some [("qa-user", "ON")] } [("qa-user", "ON")] "qa-user"
      rfl rfl rfl).2 "ON" rfl).2.2 variantOn (by rfl)

/-- C6: `GetVariant` returns the fallback unchanged with no exposure when
the flag key is unknown, when the context lacks the flag's subject
attribute, or when neither a test override nor a rollout matches; an
exposure is emitted only when exposure reporting was requested and a
variant was actually resolved. -/
theorem C6_fallback_no_exposure :
    ∀ (jl : JSONLogicApply) (flags : List (String × ExperimentationFlag))
      (evaluationMode : String) (hasTracker : Bool) (latencyMs : Int)
      (flagKey : String) (fallbackVariant : SelectedVariant)
      (flagContext : FlagContext) (reportExposure : Bool),
      (lookupKey flags flagKey = none →
        GetVariant jl flags evaluationMode hasTracker latencyMs flagKey
          fallbackVariant flagContext reportExposure =
          (fallbackVariant, none)) ∧
      (∀ flag, lookupKey flags flagKey = some flag →
        lookupKey flagContext flag.Context = none →
        GetVariant jl flags evaluationMode hasTracker latencyMs flagKey
          fallbackVariant flagContext reportExposure =
          (fallbackVariant, none)) ∧
      (∀ flag contextValue, lookupKey flags flagKey = some flag →
        lookupKey flagContext flag.Context = some contextValue →
        getVariantOverrideForTestUser flag flagContext = none →
        getAssignedRollout jl flag contextValue flagContext = none →
        GetVariant jl flags evaluationMode hasTracker latencyMs flagKey
          fallbackVariant flagContext reportExposure =
          (fallbackVariant, none)) ∧
      ((GetVariant jl flags evaluationMode hasTracker latencyMs flagKey
          fallbackVariant flagContext reportExposure).2 ≠ none →
        reportExposure = true ∧
        ∃ flag contextValue,
          lookupKey flags flagKey = some flag ∧
          lookupKey flagContext flag.Context = some contextValue ∧
          resolveVariant jl flag contextValue flagKey flagContext =
            some (GetVariant jl flags evaluationMode hasTracker latencyMs
              flagKey fallbackVariant flagContext reportExposure).1) := by
  intro jl flags evaluationMode hasTracker latencyMs flagKey fallbackVariant
    flagContext reportExposure
  refine ⟨fun h => by simp [GetVariant, h],
    fun flag hf hc => by simp [GetVariant, hf, hc],
    fun flag contextValue hf hc hov hr => by
      simp [GetVariant, hf, hc, resolveVariant, hov, hr],
    fun hne => ?_⟩
  cases hf : lookupKey flags flagKey with
  | none => exact absurd (by simp [GetVariant, hf]) hne
  | some flag =>
    cases hc : lookupKey flagContext flag.Context with
    | none => exact absurd (by simp [GetVariant, hf, hc]) hne
    | some contextValue =>
      cases hr : resolveVariant jl flag contextValue flagKey flagContext with
      | none => exact absurd (by simp [GetVariant, hf, hc, hr]) hne
      | some selectedVariant =>
        cases hrep : reportExposure with
        | false => exact absurd (by simp [GetVariant, hf, hc, hr, hrep]) hne
        | true =>
          refine ⟨rfl, flag, contextValue, rfl, hc, ?_⟩
          rw [hr]
          congr 1
          simp [GetVariant, hf, hc, hr, hrep]

/-- C6 witness: an unknown flag key returns the fallback unchanged with no
exposure. -/
theorem C6_fallback_no_exposure_witness :
    GetVariant jlOk [] "local" true 0 "missing"
      { VariantKey := none, VariantValue := .str "fallback" } [] true =
      ({ VariantKey := none, VariantValue := .str "fallback" }, none) :=
  (C6_fallback_no_exposure jlOk [] "local" true 0 "missing"
    { VariantKey := none, VariantValue := .str "fallback" } [] true).1 rfl

instance : IsTotal Variant (fun a b => a.Key ≤ b.Key) :=
  ⟨fun a b => le_total a.Key b.Key⟩

instance : IsTrans Variant (fun a b => a.Key ≤ b.Key) :=
  ⟨fun _ _ _ hab hbc => le_trans hab hbc⟩

theorem sortVariantsByKey_sorted (vs : List Variant) :
    List.Sorted (fun a b : Variant => a.Key ≤ b.Key)
      (sortVariantsByKey vs) :=
  List.sorted_insertionSort _ vs

theorem mem_insertReplace {α : Type} (m : List (String × α)) (k : String)
    (v : α) (e : String × α) (he : e ∈ insertReplace m k v) :
    e ∈ m ∨ e.2 = v := by
  unfold insertReplace at he
  split at he
  · rcases List.mem_map.mp he with ⟨p, hp, hpe⟩
    by_cases hk : p.1 == k
    · right
      simp [hk] at hpe
      rw [← hpe]
    · left
      simp [hk] at hpe
      rwa [hpe] at hp
  · rcases List.mem_append.mp he with h | h
    · exact Or.inl h
    · right
      simp at h
      simp [h]

theorem buildFlagMap_foldl_sorted (fl : List ExperimentationFlag)
    (acc : List (String × ExperimentationFlag))
    (hacc : ∀ e ∈ acc,
      List.Sorted (fun a b : Variant => a.Key ≤ b.Key)
        e.2.Ruleset.Variants) :
    ∀ e ∈ fl.foldl buildFlagMapStep acc,
      List.Sorted (fun a b : Variant => a.Key ≤ b.Key)
        e.2.Ruleset.Variants := by
  induction fl generalizing acc with
  | nil => simpa using hacc
  | cons flag rest ih =>
    intro e he
    refine ih (buildFlagMapStep acc flag) ?_ e (by simpa using he)
    intro e' he'
    rcases mem_insertReplace acc (sortFlagVariants flag).Key
        (sortFlagVariants flag) e' he' with h | h
    · exact hacc e' h
    · rw [h]
      exact sortVariantsByKey_sorted _

theorem buildFlagMap_sorted (flagsList : List ExperimentationFlag) :
    ∀ e ∈ buildFlagMap flagsList,
      List.Sorted (fun a b : Variant => a.Key ≤ b.Key)
        e.2.Ruleset.Variants :=
  buildFlagMap_foldl_sorted flagsList [] (by simp)

/-- C7: a failed fetch (transport failure, non-200 status, or undecodable
body) leaves the published snapshot and the ready bit exactly as they were;
only a decoded 200 response replaces the snapshot — with every flag's
variants sorted by key — and sets the ready bit. -/
theorem C7_stale_on_failure :
    ∀ (decode : String → Except String (List ExperimentationFlag))
      (httpResult : HTTPFetchResult) (st : FlagStoreState),
      (∀ msg, (fetchFlagDefinitions decode httpResult st).2 = some msg →
        (fetchFlagDefinitions decode httpResult st).1 = st) ∧
      ((fetchFlagDefinitions decode httpResult st).2 = none →
        ∃ body flagsList, httpResult = .response 200 body ∧
          decode body = .ok flagsList ∧
          (fetchFlagDefinitions decode httpResult st).1 =
            { flagDefinitions := buildFlagMap flagsList
              areFlagsReady := true } ∧
          ∀ e ∈ buildFlagMap flagsList,
            List.Sorted (fun a b : Variant => a.Key ≤ b.Key)
              e.2.Ruleset.Variants) := by
  intro decode httpResult st
  cases httpResult with
  | failure msg =>
    refine ⟨fun m hm => rfl, fun hnone => ?_⟩
    simp [fetchFlagDefinitions] at hnone
  | response statusCode body =>
    by_cases hs : statusCode = 200
    · subst hs
      cases hd : decode body with
      | error e =>
        refine ⟨fun m hm => by simp [fetchFlagDefinitions, hd],
          fun hnone => ?_⟩
        simp [fetchFlagDefinitions, hd] at hnone
      | ok flagsList =>
        refine ⟨fun m hm => ?_, fun hnone => ?_⟩
        · simp [fetchFlagDefinitions, hd] at hm
        · exact ⟨body, flagsList, rfl, hd,
            by simp [fetchFlagDefinitions, hd],
            buildFlagMap_sorted flagsList⟩
    · refine ⟨fun m hm => by simp [fetchFlagDefinitions, hs],
        fun hnone => ?_⟩
      simp [fetchFlagDefinitions, hs] at hnone

/-- C7 witness: a transport failure leaves an empty, not-ready store
untouched; a decoded 200 response publishes the one-flag snapshot and sets
the ready bit. -/
theorem C7_stale_on_failure_witness :
    (fetchFlagDefinitions (fun _ => .ok [flagA]) (.failure "net")
        { flagDefinitions := [], areFlagsReady := false }).1 =
      { flagDefinitions := [], areFlagsReady := false } ∧
    ∃ body flagsList,
      (HTTPFetchResult.response 200 "payload") = .response 200 body ∧
      (Except.ok [flagA] : Except String (List ExperimentationFlag)) =
        Except.ok flagsList ∧
      (fetchFlagDefinitions (fun _ => .ok [flagA]) (.response 200 "payload")
          { flagDefinitions := [], areFlagsReady := false }).1 =
        { flagDefinitions := buildFlagMap flagsList
          areFlagsReady := true } ∧
      ∀ e ∈ buildFlagMap flagsList,
        List.Sorted (fun a b : Variant => a.Key ≤ b.Key)
          e.2.Ruleset.Variants :=
  ⟨(C7_stale_on_failure (fun _ => .ok [flagA]) (.failure "net")
      { flagDefinitions := [], areFlagsReady := false }).1
      ("request failed: " ++ "net") rfl,
   (C7_stale_on_failure (fun _ => .ok [flagA]) (.response 200 "payload")
      { flagDefinitions := [], areFlagsReady := false }).2 rfl⟩

theorem testOverride_none_of_no_distinct (flag : ExperimentationFlag)
    (flagContext : FlagContext)
    (h : lookupKey flagContext "distinct_id" = none) :
    getVariantOverrideForTestUser flag flagContext = none := by
  unfold getVariantOverrideForTestUser
  cases ht : flag.Ruleset.Test with
  | none => rfl
  | some t =>
    cases hu : t.Users with
    | none => simp [hu]
    | some users => simp [hu, h]

theorem trackExposure_none_of_no_distinct (evaluationMode : String)
    (hasTracker : Bool) (flagKey : String) (variant : SelectedVariant)
    (flagContext : FlagContext) (latencyMs : Option Int)
    (h : lookupKey flagContext "distinct_id" = none) :
    trackExposure evaluationMode hasTracker flagKey variant flagContext
      latencyMs = none := by
  simp [trackExposure, h]

/-- C10: the test-override lookup and exposure reporting read the literal
context key `distinct_id` (exact map lookup, string value required); only
rollout/variant bucketing uses the attribute named by the flag's `context`
field. A context without a `distinct_id` binding therefore never hits a
test override and never emits an exposure, while a flag whose subject
attribute is present still resolves through the rollout path. -/
theorem C10_literal_distinct_id :
    ∀ (flagContext : FlagContext),
      lookupKey flagContext "distinct_id" = none →
      (∀ flag, getVariantOverrideForTestUser flag flagContext = none) ∧
      (∀ evaluationMode hasTracker flagKey variant latencyMs,
        trackExposure evaluationMode hasTracker flagKey variant flagContext
          latencyMs = none) ∧
      (∀ (jl : JSONLogicApply) flags evaluationMode hasTracker latencyMs
          flagKey fallbackVariant reportExposure,
        (GetVariant jl flags evaluationMode hasTracker latencyMs flagKey
          fallbackVariant flagContext reportExposure).2 = none ∧
        (∀ flag contextValue, lookupKey flags flagKey = some flag →
          lookupKey flagContext flag.Context = some contextValue →
          GetVariant jl flags evaluationMode hasTracker latencyMs flagKey
            fallbackVariant flagContext reportExposure =
            (((getAssignedRollout jl flag contextValue flagContext).bind
                (getAssignedVariant flag contextValue flagKey)).getD
              fallbackVariant, none))) := by
  intro flagContext hnd
  refine ⟨fun flag => testOverride_none_of_no_distinct flag flagContext hnd,
    fun evaluationMode hasTracker flagKey variant latencyMs =>
      trackExposure_none_of_no_distinct evaluationMode hasTracker flagKey
        variant flagContext latencyMs hnd,
    fun jl flags evaluationMode hasTracker latencyMs flagKey
        fallbackVariant reportExposure => ⟨?_, ?_⟩⟩
  · cases hf : lookupKey flags flagKey with
    | none => simp [GetVariant, hf]
    | some flag =>
      cases hc : lookupKey flagContext flag.Context with
      | none => simp [GetVariant, hf, hc]
      | some contextValue =>
        cases hr : resolveVariant jl flag contextValue flagKey flagContext with
        | none => simp [GetVariant, hf, hc, hr]
        | some selectedVariant =>
          cases reportExposure with
          | false => simp [GetVariant, hf, hc, hr]
          | true =>
            simp [GetVariant, hf, hc, hr,
              trackExposure_none_of_no_distinct evaluationMode hasTracker
                flagKey selectedVariant flagContext (some latencyMs) hnd]
  · intro flag contextValue hf hc
    have hov := testOverride_none_of_no_distinct flag flagContext hnd
    cases hr : getAssignedRollout jl flag contextValue flagContext with
    | none => simp [GetVariant, hf, hc, resolveVariant, hov, hr]
    | some rollout =>
      cases hv : getAssignedVariant flag contextValue flagKey rollout with
      | none => simp [GetVariant, hf, hc, resolveVariant, hov, hr, hv]
      | some selectedVariant =>
        cases reportExposure with
        | false => simp [GetVariant, hf, hc, resolveVariant, hov, hr, hv]
        | true =>
          simp [GetVariant, hf, hc, resolveVariant, hov, hr, hv,
            trackExposure_none_of_no_distinct evaluationMode hasTracker
              flagKey selectedVariant flagContext (some latencyMs) hnd]

/-- C10 witness: for a flag bucketing on `user_id` and a context holding
only `user_id`, evaluation proceeds through the rollout path while the
test-override lookup, the exposure call, and `GetVariant`'s emitted
exposure are all `none`. -/
theorem C10_literal_distinct_id_witness :
    getVariantOverrideForTestUser flagB [("user_id", .str "abc")] = none ∧
    trackExposure "local" true "flag-b"
      { VariantKey := some "on", VariantValue := .bool true }
      [("user_id", .str "abc")] (some 2) = none ∧
    (GetVariant jlOk [("flag-b", flagB)] "local" true 2 "flag-b"
      { VariantKey := none, VariantValue := .str "fallback" }
      [("user_id", .str "abc")] true).2 = none :=
  ⟨(C10_literal_distinct_id [("user_id", .str "abc")] rfl).1 flagB,
   (C10_literal_distinct_id [("user_id", .str "abc")] rfl).2.1 "local" true
     "flag-b" { VariantKey := some "on", VariantValue := .bool true }
     (some 2),
   ((C10_literal_distinct_id [("user_id", .str "abc")] rfl).2.2 jlOk
     [("flag-b", flagB)] "local" true 2 "flag-b"
     { VariantKey := none, VariantValue := .str "fallback" } true).1⟩

end Flags
